import Mathlib

/-!
# Verification of the mood-tracker Analytics & Streak Computation Engine

Shallow embedding of the analytics / streak code of the mood-tracker web
application (`src/js/streak-manager.js`, `src/js/dashboard.js`,
`src/js/stats.js`, `src/js/today.js`) together with the properties stated
in the specification.

Modelling conventions:

* A `dateKey` in the source is a canonical `YYYY-MM-DD` string produced by
  `Utils.getDateKey`.  Canonical date strings compare lexicographically in
  exactly the same order as the calendar days they denote, and the only
  operations the analytics code performs on them are equality tests,
  order comparisons, plus/minus one day, and weekday extraction.  We
  therefore model a date key as the number of days since an epoch
  (`dateKey : Nat`), with `d + 1` / `d - 1` for `setDate(getDate() ± 1)`
  and `(d + 4) % 7` for `new Date(key).getDay()` (day `0` is
  1970-01-01, a Thursday, hence the offset `4`; `0` = Sunday as in
  JavaScript).  All date keys ever produced by the application are far
  above `0`, so truncated `Nat` subtraction never bites on real inputs;
  theorems that need a lower bound state it explicitly.
* JavaScript `Set` lookups (`entryDates.has`) become list membership,
  `[...entries].map(e => e.dateKey).sort()` becomes
  `List.insertionSort (· ≤ ·)` of the mapped list (JavaScript's `sort` on
  canonical date strings sorts them lexicographically, i.e. chronologically;
  the scan that consumes the sorted list is insensitive to which stable
  sorting algorithm produced it).
* JavaScript floating-point averages are modelled as exact rationals
  (`ℚ`); sums and counts in this code are small integers so both the
  averages and the comparisons between them are exact apart from the
  final sub-ulp rounding of the division, which never affects the claims
  under scrutiny.  `Number.prototype.toFixed(1)` is modelled as rounding
  to the nearest tenth with ties rounded up (`round1`).
-/

/-- One mood record (`MoodEntry` in the spec): `dateKey` is the day number
of the canonical `YYYY-MM-DD` key, `moodType` the 1–5 mood value, `note`
free text with no role in the analytics. -/
structure Entry where
  dateKey : Nat
  moodType : Nat
  note : String
deriving DecidableEq, Repr

/-- `new Date(key).getDay()` for a canonical date key: weekday index with
`0` = Sunday … `6` = Saturday.  Day `0` of our day numbering is
1970-01-01, a Thursday (index 4). -/
def dayOfWeek (d : Nat) : Nat := (d + 4) % 7

/-- The backward-walk loop shared by both `calculateCurrentStreak`
implementations (`streak-manager.js` lines 40–44, `dashboard.js` lines
339–343): starting at day `d`, count consecutive days that are present in
`S`, walking backwards, stopping at the first missing day.  The walk can
never leave `Nat` because a day before day `0` is never a member of a
list of `Nat` keys. -/
def countStreakFrom (S : List Nat) : Nat → Nat
  | 0 => if 0 ∈ S then 1 else 0
  | d + 1 => if (d + 1) ∈ S then 1 + countStreakFrom S d else 0

/-- `StreakManager.calculateCurrentStreak` (`streak-manager.js` lines
12–47; `DashboardView.calculateCurrentStreak`, `dashboard.js` lines
308–346, is character-for-character the same computation).  `today` is
the day number of `Utils.getTodayInTimezone()`. -/
def calculateCurrentStreak (today : Nat) (entries : List Entry) : Nat :=
  if entries = [] then 0
  else
    let entryDates := entries.map Entry.dateKey
    if today ∈ entryDates then countStreakFrom entryDates today
    else if today - 1 ∈ entryDates then countStreakFrom entryDates (today - 1)
    else 0

/-- The spec's algorithm for the current streak, stated on the set `S` of
date keys exactly as written in §4.3: if `T ∈ S` start the walk at `T`,
else if `T-1 ∈ S` start at `T-1`, otherwise `0`; walk backwards counting
days in `S`. -/
def specCurrentStreak (T : Nat) (S : List Nat) : Nat :=
  if T ∈ S then countStreakFrom S T
  else if T - 1 ∈ S then countStreakFrom S (T - 1)
  else 0

/-- Body of the `for` loop of `calculateLongestStreak`
(`streak-manager.js` lines 64–76): `prev` is `sortedDates[i-1]`,
`current` and `longest` the two counters; the loop advances down the
remaining sorted dates. -/
def scanGo (prev current longest : Nat) : List Nat → Nat
  | [] => longest
  | c :: rest =>
    if prev + 1 = c then scanGo c (current + 1) (max longest (current + 1)) rest
    else scanGo c 1 longest rest

/-- The consecutive-run scan over a sorted list of date keys: `0` on the
empty list, otherwise both counters start at `1` on the first element. -/
def scanRuns : List Nat → Nat
  | [] => 0
  | d :: rest => scanGo d 1 1 rest

/-- `StreakManager.calculateLongestStreak` (`streak-manager.js` lines
54–79; `DashboardView.calculateLongestStreak`, `dashboard.js` lines
353–378, is identical).  Note the source sorts the mapped date keys
*without* removing duplicates. -/
def calculateLongestStreak (entries : List Entry) : Nat :=
  if entries = [] then 0
  else scanRuns (List.insertionSort (· ≤ ·) (entries.map Entry.dateKey))

/-- The spec's algorithm for the longest streak (§4.3): sort the
*distinct* date keys ascending and run the same consecutive-run scan. -/
def specLongestStreak (entries : List Entry) : Nat :=
  scanRuns (List.insertionSort (· ≤ ·) (entries.map Entry.dateKey).dedup)

/-- Entries for days 4–9 with day 10 as "today": the grace-day scenario
`[T-6, T-1]` with `T = 10`. -/
def exGrace6 : List Entry :=
  [⟨4, 3, ""⟩, ⟨5, 4, ""⟩, ⟨6, 2, ""⟩, ⟨7, 5, ""⟩, ⟨8, 1, ""⟩, ⟨9, 3, ""⟩]

/-- `exGrace6` plus an entry for day 10 itself. -/
def exGrace7 : List Entry := ⟨10, 4, ""⟩ :: exGrace6

/-- Duplicate date key 11 inside a 3-day run 10–12: the sorted,
non-deduplicated scan of the source resets on the duplicate. -/
def exDupKeys : List Entry :=
  [⟨10, 3, ""⟩, ⟨11, 3, ""⟩, ⟨11, 4, ""⟩, ⟨12, 3, ""⟩]

/-- A 3-day run 98–100 (with 100 as "today") in which every key is
duplicated. -/
def exDupRun : List Entry :=
  [⟨98, 2, ""⟩, ⟨98, 3, ""⟩, ⟨99, 1, ""⟩, ⟨99, 5, ""⟩, ⟨100, 4, ""⟩, ⟨100, 2, ""⟩]

/-- A plain 3-day run 98–100 with distinct keys. -/
def exRun : List Entry := [⟨98, 2, "a"⟩, ⟨99, 3, "b"⟩, ⟨100, 4, ""⟩]

/-- Two entry lists with the same key set {4, 5} but different order,
multiplicities, moods and notes. -/
def exKeysA : List Entry := [⟨5, 3, "a"⟩, ⟨5, 4, "b"⟩, ⟨4, 1, ""⟩]

/-- See `exKeysA`. -/
def exKeysB : List Entry := [⟨4, 2, "z"⟩, ⟨5, 1, ""⟩]

/-- Result of a streak recomputation (`calculateAndSaveStreak` return
value); the timestamp plays no role in the claims. -/
structure StreakData where
  currentStreak : Nat
  longestStreak : Nat
deriving DecidableEq, Repr

/-- `StreakManager.updateStreakOnEntryChange` (`streak-manager.js` lines
229–236): it delegates to `calculateAndSaveStreak`, logs a failure and
rethrows it.  The repository interaction is abstracted as the
`Except`-valued outcome `calcAndSave` of that delegate call. -/
def updateStreakOnEntryChange (calcAndSave : Except String StreakData) :
    Except String StreakData :=
  match calcAndSave with
  | Except.ok d => Except.ok d
  | Except.error e => Except.error e

/-- Observable outcome of `TodayView.handleSaveMood`: whether the entry
write completed, which toast the user sees, and which errors were
reported to the console. -/
structure SaveOutcome where
  entrySaved : Bool
  toast : String
  reportedErrors : List String
deriving DecidableEq, Repr

/-- `TodayView.handleSaveMood` (`today.js` lines 207–261) with the two
external effects as parameters: `entryWrite` is the outcome of the
Firestore `set` of the entry, `calcAndSave` the outcome of the streak
recomputation + cache write that `updateStreakOnEntryChange` performs.
The source wraps the streak update in its own `try`/`catch` that only
logs (`today.js` lines 244–249), so a streak failure still reaches the
success toast; an entry-write failure reaches the outer `catch`. -/
def handleSaveMood (selectedMood : Option Nat) (entryWrite : Except String Unit)
    (calcAndSave : Except String StreakData) : SaveOutcome :=
  match selectedMood with
  | none => ⟨false, "Please select a mood first", []⟩
  | some _ =>
    match entryWrite with
    | Except.error e => ⟨false, "Failed to save entry", [e]⟩
    | Except.ok _ =>
      match updateStreakOnEntryChange calcAndSave with
      | Except.error se => ⟨true, "Entry saved successfully!", [se]⟩
      | Except.ok _ => ⟨true, "Entry saved successfully!", []⟩

/-- The `"week"` branch of `loadDataForRange` (`stats.js` lines 94–99 and
107–108; `dashboard.js` lines 87–92 and 100–101 are identical): the start
is moved back to the Monday of the current week, and the end of the
queried interval is `Utils.getDateKey(today)` — today itself. -/
def weekRangeInterval (today : Nat) : Nat × Nat :=
  let dow := dayOfWeek today
  let diff := if dow = 0 then 6 else dow - 1
  (today - diff, today)

/-- The interval the claim describes for `"week"`: the full
Monday-through-Sunday week containing today, with the Sunday end used as
given rather than clipped to today. -/
def claimWeekInterval (today : Nat) : Nat × Nat :=
  let dow := dayOfWeek today
  let monday := today - (if dow = 0 then 6 else dow - 1)
  (monday, monday + 6)

/-- The JavaScript weekday names array used by
`calculateBestWorstDays`. -/
def dayNames : List String :=
  ["Sunday", "Monday", "Tuesday", "Wednesday", "Thursday", "Friday", "Saturday"]

/-- One bucket of `dayStats` in `calculateBestWorstDays`. -/
structure DayStat where
  sum : Nat
  count : Nat
deriving DecidableEq, Repr

/-- The `dayStats[day]` bucket accumulated by the `entries.forEach` of
`calculateBestWorstDays` (`dashboard.js` lines 474–483). -/
def dayStatFor (entries : List Entry) (day : Nat) : DayStat :=
  let es := entries.filter (fun e => dayOfWeek e.dateKey = day)
  ⟨(es.map Entry.moodType).sum, es.length⟩

/-- The weekday buckets in the order `Object.entries(dayStats)` yields
them.  JavaScript objects iterate integer-like keys (here the weekday
numbers 0–6) in ascending numeric order, regardless of the order in which
the keys were first inserted, so the iteration runs Sunday → Saturday
over the weekdays that actually occur. -/
def presentDays (entries : List Entry) : List Nat :=
  (List.range 7).filter (fun day => (dayStatFor entries day).count ≠ 0)

/-- `stats.sum / stats.count` for one bucket. -/
def avgFor (entries : List Entry) (day : Nat) : ℚ :=
  ((dayStatFor entries day).sum : ℚ) / ((dayStatFor entries day).count : ℚ)

/-- Result record `{ day, avg }` of `calculateBestWorstDays` (the source
stores `avg.toFixed(1)` for display; we keep the exact quotient the
comparisons were made with). -/
structure DayResult where
  day : String
  avg : ℚ
deriving DecidableEq, Repr

/-- One iteration of the `Object.entries(dayStats).forEach` loop of
`calculateBestWorstDays` (`dashboard.js` lines 490–500); the accumulator
carries `(best, bestAvg)` and `(worst, worstAvg)`. -/
def bwStep (acc : (Option DayResult × ℚ) × (Option DayResult × ℚ)) (p : Nat × ℚ) :
    (Option DayResult × ℚ) × (Option DayResult × ℚ) :=
  let best := if acc.1.2 < p.2 then (some ⟨dayNames.getD p.1 "", p.2⟩, p.2) else acc.1
  let worst := if p.2 < acc.2.2 then (some ⟨dayNames.getD p.1 "", p.2⟩, p.2) else acc.2
  (best, worst)

/-- `DashboardView.calculateBestWorstDays` (`dashboard.js` lines
468–503): bucket entries by weekday of their date key, average the mood
per bucket, and fold over the buckets with `bestAvg` starting at `0` and
`worstAvg` at `6`, replacing only on a strict improvement. -/
def calculateBestWorstDays (entries : List Entry) :
    Option DayResult × Option DayResult :=
  if entries = [] then (none, none)
  else
    let pairs := (presentDays entries).map fun d => (d, avgFor entries d)
    let r := pairs.foldl bwStep ((none, 0), (none, 6))
    (r.1.1, r.2.1)

/-- Duplicate-free first-appearance order of a list of weekday numbers
(first occurrence kept, later occurrences dropped). -/
def firstAppearance : List Nat → List Nat
  | [] => []
  | x :: xs => x :: (firstAppearance xs).filter (fun y => y ≠ x)

/-- The claim's reading of `calculateBestWorstDays`: identical bucketing,
averaging and strict-improvement fold, but iterating the buckets in
*insertion* order — the order in which the weekdays first appear in the
entry list. -/
def claimBestWorstDays (entries : List Entry) :
    Option DayResult × Option DayResult :=
  if entries = [] then (none, none)
  else
    let days := firstAppearance (entries.map fun e => dayOfWeek e.dateKey)
    let pairs := days.map fun d => (d, avgFor entries d)
    let r := pairs.foldl bwStep ((none, 0), (none, 6))
    (r.1.1, r.2.1)

/-- `toFixed(1)` on a (finite, small) float: round to the nearest tenth,
ties rounded up. -/
def round1 (q : ℚ) : ℚ := (⌊q * 10 + 1 / 2⌋ : ℚ) / 10

/-- `DashboardView.calculateAverageMood` (`dashboard.js` lines 385–390):
`0` for an empty list, otherwise `(sum / length).toFixed(1)` — a string
whose numeric value is the average rounded to one decimal. -/
def calculateAverageMood (entries : List Entry) : ℚ :=
  if entries = [] then 0
  else round1 (((entries.map Entry.moodType).sum : ℚ) / (entries.length : ℚ))

/-- What the weekly-trend insight card displays. -/
inductive TrendResult where
  | noData
  | notEnoughData
  | delta (d : ℚ)
deriving DecidableEq, Repr

/-- `DashboardView.updateWeeklyTrend` (`dashboard.js` lines 418–461).
`currentWeek` keeps entries with `dateKey > getDateKey(today - 7 days)`,
`previousWeek` those with `getDateKey(today - 14 days) ≤ dateKey ≤
getDateKey(today - 7 days)`.  The guard `currentAvg && previousAvg` is
JavaScript truthiness: `calculateAverageMood` returns the (always
truthy) `toFixed` string on a non-empty list and the falsy number `0` on
an empty one, so the guard is exactly "both windows non-empty".  The
displayed difference subtracts the two already-rounded averages. -/
def updateWeeklyTrend (today : Nat) (entries : List Entry) : TrendResult :=
  if entries = [] then TrendResult.noData
  else
    let currentWeek := entries.filter fun e => today - 7 < e.dateKey
    let previousWeek :=
      entries.filter fun e => today - 14 ≤ e.dateKey ∧ e.dateKey ≤ today - 7
    if currentWeek = [] ∨ previousWeek = [] then TrendResult.notEnoughData
    else
      TrendResult.delta
        (calculateAverageMood currentWeek - calculateAverageMood previousWeek)

/-- Plain (unrounded) average mood of a list of entries, `0` if empty. -/
def rawAverageMood (entries : List Entry) : ℚ :=
  if entries = [] then 0
  else ((entries.map Entry.moodType).sum : ℚ) / (entries.length : ℚ)

/-- The claim's week-over-week delta: average over the most recent 7-day
window `[T-6, T]` minus average over the preceding 7-day window
`[T-13, T-7]`, reported to one decimal; "not enough data" when either
window is empty. -/
def claimWoWDelta (today : Nat) (entries : List Entry) : TrendResult :=
  let currentWeek :=
    entries.filter fun e => today - 6 ≤ e.dateKey ∧ e.dateKey ≤ today
  let previousWeek :=
    entries.filter fun e => today - 13 ≤ e.dateKey ∧ e.dateKey ≤ today - 7
  if currentWeek = [] ∨ previousWeek = [] then TrendResult.notEnoughData
  else
    TrendResult.delta (round1 (rawAverageMood currentWeek - rawAverageMood previousWeek))

/-- The dashboard range selector value held in `this.currentRange`.  The
selector strings are a closed set; `numeric n` stands for a numeric
string such as `"7"` or `"30"` (for which JavaScript's `parseInt` yields
`n`), while `parseInt("week")` is `NaN`. -/
inductive RangeSel where
  | numeric (n : Nat)
  | week
  | month
deriving DecidableEq, Repr

/-- `Math.round` on an exact non-negative quotient `a / b` (`b > 0`):
nearest integer, ties rounded up — as integer arithmetic. -/
def natRoundDiv (a b : Nat) : Nat := (2 * a + b) / (2 * b)

/-- `DashboardView.updateLoggingRate` (`dashboard.js` lines 270–301),
returning the displayed percentage.  `dayOfMonth` is `today.getDate()`
and `daysInMonth` the day count of the current month (used by the
`"month"` branch).  For every other selector the source computes
`parseInt(this.currentRange)`, which is `NaN` for `"week"` — modelled as
`none`; `NaN > 0` is false so the percentage collapses to `0`. -/
def updateLoggingRate (range : RangeSel) (dayOfMonth daysInMonth : Nat)
    (entries : List Entry) : Nat :=
  let totalDays : Option Nat :=
    match range with
    | RangeSel.month => some (min daysInMonth dayOfMonth)
    | RangeSel.numeric n => some n
    | RangeSel.week => none
  let loggedDays := (entries.map Entry.dateKey).dedup.length
  match totalDays with
  | some td => if 0 < td then natRoundDiv (loggedDays * 100) td else 0
  | none => 0

/-- Per-mood tallies of `updateMoodDistribution` (`stats.js` lines
187–192): entries whose `moodType` is not a key of the literal `counts`
object (i.e. not in 1–5) are ignored. -/
def moodCounts (entries : List Entry) (m : Nat) : Nat :=
  (entries.filter fun e => e.moodType = m).length

/-- `Math.max(...Object.values(counts), 1)` (`stats.js` line 194). -/
def maxCount (entries : List Entry) : Nat :=
  Nat.max
    (Nat.max
      (Nat.max
        (Nat.max (Nat.max (moodCounts entries 1) (moodCounts entries 2))
          (moodCounts entries 3))
        (moodCounts entries 4))
      (moodCounts entries 5))
    1

/-- Bar height assigned to mood `m` by `updateMoodDistribution`
(`stats.js` lines 200–211): `maxCount > 0 ? (count / maxCount) * 100 :
0`. -/
def barPercentage (entries : List Entry) (m : Nat) : ℚ :=
  if 0 < maxCount entries then
    ((moodCounts entries m : ℚ) / (maxCount entries : ℚ)) * 100
  else 0

/-- Friday (day 8: `dayOfWeek 8 = 5`) inserted before Sunday (day 10:
`dayOfWeek 10 = 0`), both buckets with average mood 3 — a true tie. -/
def exTie : List Entry := [⟨8, 3, ""⟩, ⟨10, 3, ""⟩]

/-- The spec's best/worst example: Mondays (days 4 and 11 both have
`dayOfWeek = 1`) with mood 5, Fridays (days 8 and 15: `dayOfWeek = 5`)
with mood 1. -/
def exMonFri : List Entry := [⟨8, 1, ""⟩, ⟨4, 5, ""⟩, ⟨15, 1, ""⟩, ⟨11, 5, ""⟩]

/-- With `today = 100`: one entry on day `T-14` (mood 1), one on `T-13`
(mood 5), one on `T` (mood 3).  Day 86 lies inside the source's 8-day
previous window `[T-14, T-7]` but outside the claim's 7-day window
`[T-13, T-7]`. -/
def exWindow : List Entry := [⟨86, 1, ""⟩, ⟨87, 5, ""⟩, ⟨100, 3, ""⟩]

/-- With `today = 100`: one entry in each weekly window. -/
def exTwoWeeks : List Entry := [⟨100, 3, ""⟩, ⟨90, 4, ""⟩]

/-- A single mood-3 entry. -/
def exOne : List Entry := [⟨0, 3, ""⟩]

/-- The best-tracking half of `bwStep`: replace the running best exactly
when the bucket's average strictly exceeds `bestAvg`. -/
def bestStep (acc : Option DayResult × ℚ) (p : Nat × ℚ) : Option DayResult × ℚ :=
  if acc.2 < p.2 then (some ⟨dayNames.getD p.1 "", p.2⟩, p.2) else acc

/-- The worst-tracking half of `bwStep`: replace the running worst
exactly when the bucket's average is strictly below `worstAvg`. -/
def worstStep (acc : Option DayResult × ℚ) (p : Nat × ℚ) : Option DayResult × ℚ :=
  if p.2 < acc.2 then (some ⟨dayNames.getD p.1 "", p.2⟩, p.2) else acc

lemma countStreakFrom_not_mem {S : List Nat} {d : Nat} (h : d ∉ S) :
    countStreakFrom S d = 0 := by
  cases d with
  | zero => simp [countStreakFrom, h]
  | succ k => simp [countStreakFrom, h]

lemma countStreakFrom_le (S : List Nat) (d : Nat) : countStreakFrom S d ≤ d + 1 := by
  induction d with
  | zero => simp [countStreakFrom]; split <;> omega
  | succ k ih => simp only [countStreakFrom]; split <;> omega

lemma countStreakFrom_mem {S : List Nat} {d : Nat} :
    ∀ i < countStreakFrom S d, d - i ∈ S := by
  induction d with
  | zero =>
    intro i hi
    simp only [countStreakFrom] at hi
    split at hi
    · interval_cases i
      · simpa using ‹(0 : Nat) ∈ S›
    · omega
  | succ k ih =>
    intro i hi
    simp only [countStreakFrom] at hi
    split at hi
    · cases i with
      | zero => simpa using ‹k + 1 ∈ S›
      | succ j =>
        have hj : j < countStreakFrom S k := by omega
        have := ih j hj
        simpa [Nat.succ_sub_succ] using this
    · omega

lemma countStreakFrom_run {S : List Nat} :
    ∀ (n a : Nat), 1 ≤ a → (∀ x, a ≤ x → x ≤ a + n → x ∈ S) → a - 1 ∉ S →
      countStreakFrom S (a + n) = n + 1 := by
  intro n
  induction n with
  | zero =>
    intro a ha hmem hout
    cases a with
    | zero => omega
    | succ k =>
      have hk : k ∉ S := by simpa using hout
      have hks : k + 1 ∈ S := hmem (k + 1) le_rfl (by omega)
      simp [countStreakFrom, hks, countStreakFrom_not_mem hk]
  | succ n ih =>
    intro a ha hmem hout
    have hm : a + (n + 1) ∈ S := hmem (a + (n + 1)) (by omega) (by omega)
    have step : a + (n + 1) = (a + n) + 1 := by omega
    rw [step] at hm ⊢
    rw [countStreakFrom, if_pos hm]
    rw [ih a ha (fun x hx hx2 => hmem x hx (by omega)) hout]
    omega

lemma countStreakFrom_congr {S₁ S₂ : List Nat} (h : ∀ k, k ∈ S₁ ↔ k ∈ S₂) :
    ∀ d, countStreakFrom S₁ d = countStreakFrom S₂ d := by
  intro d
  induction d with
  | zero => simp only [countStreakFrom, h 0]
  | succ k ih => simp only [countStreakFrom, h (k + 1), ih]

lemma calculateCurrentStreak_eq_spec (T : Nat) (E : List Entry) :
    calculateCurrentStreak T E = specCurrentStreak T (E.map Entry.dateKey) := by
  rcases eq_or_ne E [] with rfl | hne
  · simp [calculateCurrentStreak, specCurrentStreak]
  · simp [calculateCurrentStreak, specCurrentStreak, hne]

lemma specCurrentStreak_congr {S₁ S₂ : List Nat} (T : Nat)
    (h : ∀ k, k ∈ S₁ ↔ k ∈ S₂) : specCurrentStreak T S₁ = specCurrentStreak T S₂ := by
  simp only [specCurrentStreak, h T, h (T - 1), countStreakFrom_congr h]

lemma le_scanGo : ∀ (l : List Nat) (prev cur long : Nat), long ≤ scanGo prev cur long l := by
  intro l
  induction l with
  | nil => intro prev cur long; simp [scanGo]
  | cons c rest ih =>
    intro prev cur long
    simp only [scanGo]
    split
    · exact le_trans (le_max_left _ _) (ih c (cur + 1) (max long (cur + 1)))
    · exact ih c 1 long

lemma scanGo_mono : ∀ (l : List Nat) (prev c c' g g' : Nat), c ≤ c' → g ≤ g' →
    scanGo prev c g l ≤ scanGo prev c' g' l := by
  intro l
  induction l with
  | nil => intro prev c c' g g' hc hg; simpa [scanGo] using hg
  | cons x rest ih =>
    intro prev c c' g g' hc hg
    simp only [scanGo]
    split
    · exact ih x (c + 1) (c' + 1) _ _ (by omega) (max_le_max hg (by omega))
    · exact ih x 1 1 g g' le_rfl hg

lemma scanGo_run : ∀ (l : List Nat) (prev cur long k : Nat), cur ≤ long →
    (prev :: l).Pairwise (· < ·) → (∀ i ≤ k, prev + i ∈ prev :: l) →
    cur + k ≤ scanGo prev cur long l := by
  intro l
  induction l with
  | nil =>
    intro prev cur long k hcl _ hmem
    have := hmem k le_rfl
    have hk : k = 0 := by simpa using this
    subst hk
    simpa [scanGo] using hcl
  | cons c rest ih =>
    intro prev cur long k hcl hpw hmem
    cases k with
    | zero => simpa using le_trans hcl (le_scanGo (c :: rest) prev cur long)
    | succ k =>
      have h1 : prev + 1 ∈ prev :: c :: rest := hmem 1 (by omega)
      have hlt : ∀ x ∈ c :: rest, prev < x := (List.pairwise_cons.mp hpw).1
      have htail : (c :: rest).Pairwise (· < ·) := (List.pairwise_cons.mp hpw).2
      have hc : c = prev + 1 := by
        rcases List.mem_cons.mp h1 with h | h
        · omega
        · rcases List.mem_cons.mp h with h | h
          · omega
          · have h2 : c < prev + 1 := (List.pairwise_cons.mp htail).1 _ h
            have h3 : prev < c := hlt c (List.mem_cons_self _ _)
            omega
      subst hc
      have hnext : ∀ i ≤ k, (prev + 1) + i ∈ (prev + 1) :: rest := by
        intro i hi
        have hm2 := hmem (i + 1) (by omega)
        have heq : prev + (i + 1) = (prev + 1) + i := by omega
        rw [heq] at hm2
        rcases List.mem_cons.mp hm2 with h | h
        · omega
        · exact h
      simp only [scanGo, eq_self_iff_true, if_true]
      have := ih (prev + 1) (cur + 1) (max long (cur + 1)) k (le_max_right _ _)
        htail hnext
      omega

lemma scanRuns_cons_le (d : Nat) (l : List Nat) : scanRuns l ≤ scanRuns (d :: l) := by
  cases l with
  | nil => simp [scanRuns, scanGo]
  | cons c rest =>
    simp only [scanRuns, scanGo]
    split
    · exact scanGo_mono rest c 1 2 1 (max 1 2) (by omega) (by omega)
    · exact le_rfl

lemma scanRuns_ge_run : ∀ (l : List Nat) (a k : Nat), l.Pairwise (· < ·) →
    (∀ i ≤ k, a + i ∈ l) → k + 1 ≤ scanRuns l := by
  intro l
  induction l with
  | nil =>
    intro a k _ hmem
    simpa using hmem 0 (by omega)
  | cons d rest ih =>
    intro a k hpw hmem
    rcases eq_or_ne a d with rfl | hne
    · simp only [scanRuns]
      have := scanGo_run rest a 1 1 k le_rfl hpw hmem
      omega
    · have hmem' : ∀ i ≤ k, a + i ∈ rest := by
        intro i hi
        have h0 : a ∈ d :: rest := by simpa using hmem 0 (by omega)
        have ha : a ∈ rest := by
          rcases List.mem_cons.mp h0 with h | h
          · exact absurd h hne
          · exact h
        have hda : d < a := (List.pairwise_cons.mp hpw).1 a ha
        have := hmem i hi
        rcases List.mem_cons.mp this with h | h
        · omega
        · exact h
      exact le_trans (ih a k (List.pairwise_cons.mp hpw).2 hmem')
        (scanRuns_cons_le d rest)

lemma sorted_keys_pairwise_lt {keys : List Nat} (h : keys.Nodup) :
    (List.insertionSort (· ≤ ·) keys).Pairwise (· < ·) := by
  have hs : (List.insertionSort (· ≤ ·) keys).Pairwise (· ≤ ·) :=
    List.sorted_insertionSort (· ≤ ·) keys
  have hn : (List.insertionSort (· ≤ ·) keys).Nodup :=
    ((List.perm_insertionSort (· ≤ ·) keys).nodup_iff).mpr h
  exact (hs.and hn).imp fun hab => lt_of_le_of_ne hab.1 hab.2

lemma countStreak_le_longest {E : List Entry} (h : (E.map Entry.dateKey).Nodup)
    (s : Nat) :
    countStreakFrom (E.map Entry.dateKey) s ≤ calculateLongestStreak E := by
  set keys := E.map Entry.dateKey with hkeys
  set L := countStreakFrom keys s with hL
  rcases Nat.eq_zero_or_pos L with h0 | hpos
  · omega
  · have hne : E ≠ [] := by
      intro hE
      rw [hE] at hkeys
      have : L = 0 := by
        rw [hL, hkeys]
        exact countStreakFrom_not_mem (by simp)
      omega
    have hsL : L ≤ s + 1 := by rw [hL]; exact countStreakFrom_le keys s
    have hmem : ∀ i ≤ L - 1, (s - (L - 1)) + i ∈ keys := by
      intro i hi
      have hj : L - 1 - i < L := by omega
      have := countStreakFrom_mem (S := keys) (d := s) (L - 1 - i) (by omega)
      have heq : s - (L - 1 - i) = (s - (L - 1)) + i := by omega
      rwa [heq] at this
    have hmem' : ∀ i ≤ L - 1, (s - (L - 1)) + i ∈ List.insertionSort (· ≤ ·) keys := by
      intro i hi
      exact ((List.perm_insertionSort (· ≤ ·) keys).mem_iff).mpr (hmem i hi)
    have := scanRuns_ge_run (List.insertionSort (· ≤ ·) keys) (s - (L - 1)) (L - 1)
      (sorted_keys_pairwise_lt h) hmem'
    have hL1 : L - 1 + 1 = L := by omega
    rw [hL1] at this
    rw [calculateLongestStreak, if_neg hne]
    exact this

/-- C1: for every list of entries the current streak is the spec's
backward walk over the set of date keys (start at `T` if present, else at
`T-1`, else `0`; count consecutive present days walking backwards); an
empty entry list yields `0`; if entries cover every day of `[T-6, T-1]`
but neither `T` nor `T-7`, the result is `6`, and with `T` added it is
`7`. -/
theorem currentStreak_spec_walk :
    (∀ (T : Nat) (E : List Entry),
      calculateCurrentStreak T E = specCurrentStreak T (E.map Entry.dateKey))
    ∧ (∀ T : Nat, calculateCurrentStreak T [] = 0)
    ∧ (∀ (T : Nat) (E : List Entry), 7 ≤ T →
      (∀ d ∈ List.range' (T - 6) 6, d ∈ E.map Entry.dateKey) →
      T ∉ E.map Entry.dateKey → T - 7 ∉ E.map Entry.dateKey →
      calculateCurrentStreak T E = 6)
    ∧ (∀ (T : Nat) (E : List Entry), 7 ≤ T →
      (∀ d ∈ List.range' (T - 6) 7, d ∈ E.map Entry.dateKey) →
      T - 7 ∉ E.map Entry.dateKey →
      calculateCurrentStreak T E = 7) := by
  refine ⟨calculateCurrentStreak_eq_spec, ?_, ?_, ?_⟩
  · intro T; simp [calculateCurrentStreak]
  · intro T E hT hcov hT0 hT7
    rw [calculateCurrentStreak_eq_spec]
    set keys := E.map Entry.dateKey with hkeys
    have hm1 : T - 1 ∈ keys := by
      refine hcov (T - 1) ?_
      rw [List.mem_range'_1]
      omega
    rw [specCurrentStreak, if_neg hT0, if_pos hm1]
    have hstep : T - 1 = (T - 6) + 5 := by omega
    rw [hstep]
    refine countStreakFrom_run 5 (T - 6) (by omega) ?_ ?_
    · intro x hx hx6
      refine hcov x ?_
      rw [List.mem_range'_1]
      omega
    · have : T - 6 - 1 = T - 7 := by omega
      rw [this]
      exact hT7
  · intro T E hT hcov hT7
    rw [calculateCurrentStreak_eq_spec]
    set keys := E.map Entry.dateKey with hkeys
    have hm1 : T ∈ keys := by
      refine hcov T ?_
      rw [List.mem_range'_1]
      omega
    rw [specCurrentStreak, if_pos hm1]
    have hstep : T = (T - 6) + 6 := by omega
    rw [hstep]
    refine countStreakFrom_run 6 (T - 6) (by omega) ?_ ?_
    · intro x hx hx6
      refine hcov x ?_
      rw [List.mem_range'_1]
      omega
    · have : T - 6 - 1 = T - 7 := by omega
      rw [this]
      exact hT7

/-- Concrete instance of `currentStreak_spec_walk` with `T = 10`: entries
on days 4–9 give a current streak of 6 (grace day), adding day 10 gives
7, and the empty list gives 0. -/
theorem currentStreak_spec_walk_witness :
    calculateCurrentStreak 10 exGrace6 = 6 ∧
    calculateCurrentStreak 10 exGrace7 = 7 ∧
    calculateCurrentStreak 10 [] = 0 :=
  ⟨currentStreak_spec_walk.2.2.1 10 exGrace6 (by decide) (by decide) (by decide)
    (by decide),
   currentStreak_spec_walk.2.2.2 10 exGrace7 (by decide) (by decide) (by decide),
   currentStreak_spec_walk.2.1 10⟩

/-- C2 counterexample: on an entry list with a duplicated date key
(days 10, 11, 11, 12) the source scans the sorted list *without*
deduplication, the duplicate resets the run counter, and the result (2)
differs from the spec's dedup-then-scan value (3). -/
theorem longestStreak_duplicates_cex :
    calculateLongestStreak exDupKeys ≠ specLongestStreak exDupKeys := by decide

/-- C2 (amended): for entry lists whose date keys are pairwise distinct,
the longest streak equals the spec's maximum run length over the distinct
sorted date keys; the empty list yields 0 and a single entry yields 1.
(On lists with duplicated date keys the source does *not* deduplicate
before the scan and can return a smaller value.) -/
theorem longestStreak_distinct_amended :
    (∀ E : List Entry, (E.map Entry.dateKey).Nodup →
      calculateLongestStreak E = specLongestStreak E)
    ∧ calculateLongestStreak ([] : List Entry) = 0
    ∧ ∀ e : Entry, calculateLongestStreak [e] = 1 := by
  refine ⟨?_, by decide, ?_⟩
  · intro E h
    rcases eq_or_ne E [] with rfl | hne
    · simp [calculateLongestStreak, specLongestStreak, scanRuns]
    · rw [calculateLongestStreak, if_neg hne, specLongestStreak,
        List.dedup_eq_self.mpr h]
  · intro e
    simp [calculateLongestStreak, List.insertionSort, scanRuns, scanGo]

/-- Concrete instance of `longestStreak_distinct_amended` on the
duplicate-free 3-day run 98–100. -/
theorem longestStreak_distinct_amended_witness :
    (exRun.map Entry.dateKey).Nodup ∧
    calculateLongestStreak exRun = specLongestStreak exRun :=
  ⟨by decide, longestStreak_distinct_amended.1 exRun (by decide)⟩

/-- C3 counterexample: with every key of the 3-day run 98–100 duplicated
and `today = 100`, the current streak is 3 (it works on the key *set*)
but the longest streak is 2 (the non-deduplicated scan resets on each
duplicate), so `longestStreak ≥ currentStreak` fails. -/
theorem longest_ge_current_cex :
    ¬ calculateCurrentStreak 100 exDupRun ≤ calculateLongestStreak exDupRun := by
  decide

/-- C3 (amended): for entry lists with pairwise distinct date keys —
which is every list satisfying the data model's one-entry-per-day
invariant — the freshly computed longest streak is at least the freshly
computed current streak, for any `today`. -/
theorem longest_ge_current_nodup (T : Nat) (E : List Entry)
    (h : (E.map Entry.dateKey).Nodup) :
    calculateCurrentStreak T E ≤ calculateLongestStreak E := by
  rcases eq_or_ne E [] with rfl | hne
  · simp [calculateCurrentStreak]
  · simp only [calculateCurrentStreak, if_neg hne]
    split_ifs with h1 h2
    · exact countStreak_le_longest h T
    · exact countStreak_le_longest h (T - 1)
    · exact Nat.zero_le _

/-- Concrete instance of `longest_ge_current_nodup` on the
duplicate-free 3-day run 98–100 with `today = 100`. -/
theorem longest_ge_current_nodup_witness :
    (exRun.map Entry.dateKey).Nodup ∧
    calculateCurrentStreak 100 exRun ≤ calculateLongestStreak exRun :=
  ⟨by decide, longest_ge_current_nodup 100 exRun (by decide)⟩

/-- C4: when the entry write succeeds but the streak-cache recomputation
or its persistence fails, `handleSaveMood` still completes the save —
the entry write stands, the success toast is shown, and the cache
failure is only reported, never propagated into the save outcome. -/
theorem saveMood_cacheFailure_not_fatal (m : Nat) (serr : String) :
    handleSaveMood (some m) (Except.ok ()) (Except.error serr) =
      ⟨true, "Entry saved successfully!", [serr]⟩ := rfl

/-- C5 counterexample: with `today = 100` (a Saturday,
`dayOfWeek 100 = 6`), the source resolves the `"week"` range to
`(95, 100)` — Monday through *today* — while the claim's full
Monday-to-Sunday interval is `(95, 101)`. -/
theorem weekRange_full_week_cex :
    weekRangeInterval 100 ≠ claimWeekInterval 100 := by decide

/-- C5 (amended): for the `"week"` selector the resolved interval runs
from the Monday of the week containing today (a day with weekday index 1,
at most 6 days back) to *today itself* — the end bound is
`getDateKey(today)`, so whenever today is not the week's Sunday the
interval ends strictly before the claim's full-week Sunday bound. -/
theorem weekRange_amended (t : Nat) (h : 6 ≤ t) :
    (weekRangeInterval t).2 = t ∧
    dayOfWeek (weekRangeInterval t).1 = 1 ∧
    t - 6 ≤ (weekRangeInterval t).1 ∧ (weekRangeInterval t).1 ≤ t ∧
    (dayOfWeek t ≠ 0 → (weekRangeInterval t).2 < (claimWeekInterval t).2) := by
  unfold weekRangeInterval claimWeekInterval dayOfWeek
  rcases eq_or_ne ((t + 4) % 7) 0 with h0 | h0 <;> simp [h0] <;> omega

/-- Concrete instance of `weekRange_amended` at `today = 100`. -/
theorem weekRange_amended_witness :
    (weekRangeInterval 100).2 = 100 ∧
    dayOfWeek (weekRangeInterval 100).1 = 1 ∧
    100 - 6 ≤ (weekRangeInterval 100).1 ∧ (weekRangeInterval 100).1 ≤ 100 ∧
    (dayOfWeek 100 ≠ 0 → (weekRangeInterval 100).2 < (claimWeekInterval 100).2) :=
  weekRange_amended 100 (by decide)

lemma bwStep_eq (acc : (Option DayResult × ℚ) × (Option DayResult × ℚ))
    (p : Nat × ℚ) : bwStep acc p = (bestStep acc.1 p, worstStep acc.2 p) := rfl

lemma foldl_bwStep_fst : ∀ (l : List (Nat × ℚ)) (a w : Option DayResult × ℚ),
    (List.foldl bwStep (a, w) l).1 = List.foldl bestStep a l := by
  intro l
  induction l with
  | nil => intro a w; rfl
  | cons p rest ih =>
    intro a w
    simp only [List.foldl_cons, bwStep_eq]
    exact ih _ _

lemma foldl_bwStep_snd : ∀ (l : List (Nat × ℚ)) (a w : Option DayResult × ℚ),
    (List.foldl bwStep (a, w) l).2 = List.foldl worstStep w l := by
  intro l
  induction l with
  | nil => intro a w; rfl
  | cons p rest ih =>
    intro a w
    simp only [List.foldl_cons, bwStep_eq]
    exact ih _ _

lemma bestFold_char : ∀ (l : List (Nat × ℚ)) (b : Nat) (v : ℚ),
    ((b, v) :: l).Pairwise (fun p q => p.1 < q.1) →
    ∃ db vb,
      List.foldl bestStep (some ⟨dayNames.getD b "", v⟩, v) l =
        (some ⟨dayNames.getD db "", vb⟩, vb) ∧
      (db, vb) ∈ (b, v) :: l ∧
      (∀ p ∈ (b, v) :: l, p.2 ≤ vb) ∧
      (∀ p ∈ (b, v) :: l, p.2 = vb → db ≤ p.1) := by
  intro l
  induction l with
  | nil =>
    intro b v _
    refine ⟨b, v, rfl, List.mem_cons_self _ _, ?_, ?_⟩
    · intro p hp
      have hpe : p = (b, v) := by simpa using hp
      subst hpe
      exact le_rfl
    · intro p hp _
      have hpe : p = (b, v) := by simpa using hp
      subst hpe
      exact le_rfl
  | cons q rest ih =>
    intro b v hpw
    obtain ⟨d1, v1⟩ := q
    have hb_lt : ∀ p ∈ (d1, v1) :: rest, (b, v).1 < p.1 :=
      (List.pairwise_cons.mp hpw).1
    have htail : ((d1, v1) :: rest).Pairwise (fun p q => p.1 < q.1) :=
      (List.pairwise_cons.mp hpw).2
    simp only [List.foldl_cons]
    by_cases hlt : v < v1
    · have hstep : bestStep (some ⟨dayNames.getD b "", v⟩, v) (d1, v1) =
          (some ⟨dayNames.getD d1 "", v1⟩, v1) := by
        simp [bestStep, hlt]
      rw [hstep]
      obtain ⟨db, vb, heq, hmem, hub, htie⟩ := ih d1 v1 htail
      have hv1b : v1 ≤ vb := hub (d1, v1) (List.mem_cons_self _ _)
      refine ⟨db, vb, heq, List.mem_cons_of_mem _ hmem, ?_, ?_⟩
      · intro p hp
        rcases List.mem_cons.mp hp with rfl | hp
        · exact le_trans (le_of_lt hlt) hv1b
        · exact hub p hp
      · intro p hp hpv
        rcases List.mem_cons.mp hp with rfl | hp
        · exact absurd hpv (ne_of_lt (lt_of_lt_of_le hlt hv1b))
        · exact htie p hp hpv
    · have hstep : bestStep (some ⟨dayNames.getD b "", v⟩, v) (d1, v1) =
          (some ⟨dayNames.getD b "", v⟩, v) := by
        simp [bestStep, hlt]
      rw [hstep]
      have hpw2 : ((b, v) :: rest).Pairwise (fun p q => p.1 < q.1) := by
        rw [List.pairwise_cons]
        exact ⟨fun p hp => hb_lt p (List.mem_cons_of_mem _ hp),
          (List.pairwise_cons.mp htail).2⟩
      obtain ⟨db, vb, heq, hmem, hub, htie⟩ := ih b v hpw2
      have hv_le : v ≤ vb := hub (b, v) (List.mem_cons_self _ _)
      have hv1v : v1 ≤ v := not_lt.mp hlt
      refine ⟨db, vb, heq, ?_, ?_, ?_⟩
      · rcases List.mem_cons.mp hmem with h | h
        · rw [h]; exact List.mem_cons_self _ _
        · exact List.mem_cons_of_mem _ (List.mem_cons_of_mem _ h)
      · intro p hp
        rcases List.mem_cons.mp hp with rfl | hp
        · exact hv_le
        · rcases List.mem_cons.mp hp with rfl | hp
          · exact le_trans hv1v hv_le
          · exact hub p (List.mem_cons_of_mem _ hp)
      · intro p hp hpv
        rcases List.mem_cons.mp hp with rfl | hp
        · exact htie (b, v) (List.mem_cons_self _ _) hpv
        · rcases List.mem_cons.mp hp with rfl | hp
          · have hvb_le : vb ≤ v := by
              rw [← hpv]
              exact hv1v
            have hveq : v = vb := le_antisymm hv_le hvb_le
            have hdb : db ≤ b := htie (b, v) (List.mem_cons_self _ _) hveq
            have hbd1 : b < d1 := hb_lt (d1, v1) (List.mem_cons_self _ _)
            omega
          · exact htie p (List.mem_cons_of_mem _ hp) hpv

lemma worstFold_char : ∀ (l : List (Nat × ℚ)) (b : Nat) (v : ℚ),
    ((b, v) :: l).Pairwise (fun p q => p.1 < q.1) →
    ∃ dw vw,
      List.foldl worstStep (some ⟨dayNames.getD b "", v⟩, v) l =
        (some ⟨dayNames.getD dw "", vw⟩, vw) ∧
      (dw, vw) ∈ (b, v) :: l ∧
      (∀ p ∈ (b, v) :: l, vw ≤ p.2) ∧
      (∀ p ∈ (b, v) :: l, p.2 = vw → dw ≤ p.1) := by
  intro l
  induction l with
  | nil =>
    intro b v _
    refine ⟨b, v, rfl, List.mem_cons_self _ _, ?_, ?_⟩
    · intro p hp
      have hpe : p = (b, v) := by simpa using hp
      subst hpe
      exact le_rfl
    · intro p hp _
      have hpe : p = (b, v) := by simpa using hp
      subst hpe
      exact le_rfl
  | cons q rest ih =>
    intro b v hpw
    obtain ⟨d1, v1⟩ := q
    have hb_lt : ∀ p ∈ (d1, v1) :: rest, (b, v).1 < p.1 :=
      (List.pairwise_cons.mp hpw).1
    have htail : ((d1, v1) :: rest).Pairwise (fun p q => p.1 < q.1) :=
      (List.pairwise_cons.mp hpw).2
    simp only [List.foldl_cons]
    by_cases hlt : v1 < v
    · have hstep : worstStep (some ⟨dayNames.getD b "", v⟩, v) (d1, v1) =
          (some ⟨dayNames.getD d1 "", v1⟩, v1) := by
        simp [worstStep, hlt]
      rw [hstep]
      obtain ⟨dw, vw, heq, hmem, hlb, htie⟩ := ih d1 v1 htail
      have hv1b : vw ≤ v1 := hlb (d1, v1) (List.mem_cons_self _ _)
      refine ⟨dw, vw, heq, List.mem_cons_of_mem _ hmem, ?_, ?_⟩
      · intro p hp
        rcases List.mem_cons.mp hp with rfl | hp
        · exact le_trans hv1b (le_of_lt hlt)
        · exact hlb p hp
      · intro p hp hpv
        rcases List.mem_cons.mp hp with rfl | hp
        · exact absurd hpv (ne_of_gt (lt_of_le_of_lt hv1b hlt))
        · exact htie p hp hpv
    · have hstep : worstStep (some ⟨dayNames.getD b "", v⟩, v) (d1, v1) =
          (some ⟨dayNames.getD b "", v⟩, v) := by
        simp [worstStep, hlt]
      rw [hstep]
      have hpw2 : ((b, v) :: rest).Pairwise (fun p q => p.1 < q.1) := by
        rw [List.pairwise_cons]
        exact ⟨fun p hp => hb_lt p (List.mem_cons_of_mem _ hp),
          (List.pairwise_cons.mp htail).2⟩
      obtain ⟨dw, vw, heq, hmem, hlb, htie⟩ := ih b v hpw2
      have hv_le : vw ≤ v := hlb (b, v) (List.mem_cons_self _ _)
      have hv1v : v ≤ v1 := not_lt.mp hlt
      refine ⟨dw, vw, heq, ?_, ?_, ?_⟩
      · rcases List.mem_cons.mp hmem with h | h
        · rw [h]; exact List.mem_cons_self _ _
        · exact List.mem_cons_of_mem _ (List.mem_cons_of_mem _ h)
      · intro p hp
        rcases List.mem_cons.mp hp with rfl | hp
        · exact hv_le
        · rcases List.mem_cons.mp hp with rfl | hp
          · exact le_trans hv_le hv1v
          · exact hlb p (List.mem_cons_of_mem _ hp)
      · intro p hp hpv
        rcases List.mem_cons.mp hp with rfl | hp
        · exact htie (b, v) (List.mem_cons_self _ _) hpv
        · rcases List.mem_cons.mp hp with rfl | hp
          · have hvb_le : v ≤ vw := by
              rw [← hpv]
              exact hv1v
            have hveq : v = vw := le_antisymm hvb_le hv_le
            have hdw : dw ≤ b := htie (b, v) (List.mem_cons_self _ _) hveq
            have hbd1 : b < d1 := hb_lt (d1, v1) (List.mem_cons_self _ _)
            omega
          · exact htie p (List.mem_cons_of_mem _ hp) hpv

lemma length_le_sum {l : List Nat} (h : ∀ x ∈ l, 1 ≤ x) : l.length ≤ l.sum := by
  induction l with
  | nil => simp
  | cons a t ih =>
    simp only [List.length_cons, List.sum_cons]
    have h1 := h a (List.mem_cons_self _ _)
    have h2 := ih fun x hx => h x (List.mem_cons_of_mem _ hx)
    omega

lemma sum_le_five_mul {l : List Nat} (h : ∀ x ∈ l, x ≤ 5) : l.sum ≤ 5 * l.length := by
  induction l with
  | nil => simp
  | cons a t ih =>
    simp only [List.length_cons, List.sum_cons]
    have h1 := h a (List.mem_cons_self _ _)
    have h2 := ih fun x hx => h x (List.mem_cons_of_mem _ hx)
    omega

lemma dayStat_bounds {E : List Entry}
    (hval : ∀ e ∈ E, 1 ≤ e.moodType ∧ e.moodType ≤ 5) (d : Nat) :
    (dayStatFor E d).count ≤ (dayStatFor E d).sum ∧
      (dayStatFor E d).sum ≤ 5 * (dayStatFor E d).count := by
  have hmoods : ∀ x ∈ ((E.filter fun e => dayOfWeek e.dateKey = d).map
      Entry.moodType), 1 ≤ x ∧ x ≤ 5 := by
    intro x hx
    obtain ⟨e, he, rfl⟩ := List.mem_map.mp hx
    exact hval e (List.mem_filter.mp he).1
  constructor
  · have := length_le_sum fun x hx => (hmoods x hx).1
    simpa [dayStatFor] using this
  · have := sum_le_five_mul fun x hx => (hmoods x hx).2
    simpa [dayStatFor] using this

lemma mem_presentDays {E : List Entry} {d : Nat} :
    d ∈ presentDays E ↔ d < 7 ∧ (dayStatFor E d).count ≠ 0 := by
  simp [presentDays, List.mem_filter, List.mem_range]

lemma presentDays_pairwise (E : List Entry) :
    (presentDays E).Pairwise (· < ·) :=
  (List.pairwise_lt_range 7).filter _

lemma avgFor_pos {E : List Entry}
    (hval : ∀ e ∈ E, 1 ≤ e.moodType ∧ e.moodType ≤ 5) {d : Nat}
    (hd : (dayStatFor E d).count ≠ 0) : 0 < avgFor E d := by
  have hb := (dayStat_bounds hval d).1
  have hsum : 0 < (dayStatFor E d).sum := by omega
  have hcnt : 0 < (dayStatFor E d).count := Nat.pos_of_ne_zero hd
  exact div_pos (by exact_mod_cast hsum) (by exact_mod_cast hcnt)

lemma avgFor_lt_six {E : List Entry}
    (hval : ∀ e ∈ E, 1 ≤ e.moodType ∧ e.moodType ≤ 5) {d : Nat}
    (hd : (dayStatFor E d).count ≠ 0) : avgFor E d < 6 := by
  have hb := (dayStat_bounds hval d).2
  have hcnt : 0 < (dayStatFor E d).count := Nat.pos_of_ne_zero hd
  rw [avgFor, div_lt_iff₀ (by exact_mod_cast hcnt)]
  have hlt : (dayStatFor E d).sum < 6 * (dayStatFor E d).count := by omega
  exact_mod_cast hlt

/-- C6 (amended): `calculateBestWorstDays` buckets entries by the weekday
of their date key, averages `moodType` per bucket, and reports the bucket
with the highest average as best and the lowest as worst; on a tie of
averages the bucket with the *smallest weekday index* wins, because
JavaScript iterates the integer-keyed `dayStats` object in ascending
numeric key order (Sunday first), not in insertion order. -/
theorem bestWorst_amended (E : List Entry) (hne : E ≠ [])
    (hval : ∀ e ∈ E, 1 ≤ e.moodType ∧ e.moodType ≤ 5) :
    ∃ db dw : Nat,
      db ∈ presentDays E ∧ dw ∈ presentDays E ∧
      (calculateBestWorstDays E).1 = some ⟨dayNames.getD db "", avgFor E db⟩ ∧
      (calculateBestWorstDays E).2 = some ⟨dayNames.getD dw "", avgFor E dw⟩ ∧
      (∀ d ∈ presentDays E, avgFor E d ≤ avgFor E db) ∧
      (∀ d ∈ presentDays E, avgFor E d = avgFor E db → db ≤ d) ∧
      (∀ d ∈ presentDays E, avgFor E dw ≤ avgFor E d) ∧
      (∀ d ∈ presentDays E, avgFor E d = avgFor E dw → dw ≤ d) := by
  classical
  have hposcount : ∀ d ∈ presentDays E, (dayStatFor E d).count ≠ 0 :=
    fun d hd => (mem_presentDays.mp hd).2
  have hpne : presentDays E ≠ [] := by
    obtain ⟨e, E', hE⟩ := List.exists_cons_of_ne_nil hne
    have hmem : e ∈ E.filter fun x => dayOfWeek x.dateKey = dayOfWeek e.dateKey := by
      rw [List.mem_filter]
      exact ⟨by rw [hE]; exact List.mem_cons_self _ _, by simp⟩
    have hcnt : (dayStatFor E (dayOfWeek e.dateKey)).count ≠ 0 := by
      have : 0 < (E.filter fun x => dayOfWeek x.dateKey = dayOfWeek e.dateKey).length :=
        List.length_pos.mpr (List.ne_nil_of_mem hmem)
      simp only [dayStatFor]
      omega
    have : dayOfWeek e.dateKey ∈ presentDays E :=
      mem_presentDays.mpr ⟨Nat.mod_lt _ (by omega), hcnt⟩
    exact List.ne_nil_of_mem this
  obtain ⟨d0, ds, hds⟩ := List.exists_cons_of_ne_nil hpne
  have hd0 : d0 ∈ presentDays E := by rw [hds]; exact List.mem_cons_self _ _
  have hpos0 : 0 < avgFor E d0 := avgFor_pos hval (hposcount d0 hd0)
  have hlt0 : avgFor E d0 < 6 := avgFor_lt_six hval (hposcount d0 hd0)
  have hcalc : calculateBestWorstDays E =
      ((((presentDays E).map fun d => (d, avgFor E d)).foldl bwStep
          ((none, 0), (none, 6))).1.1,
        (((presentDays E).map fun d => (d, avgFor E d)).foldl bwStep
          ((none, 0), (none, 6))).2.1) := by
    rw [calculateBestWorstDays, if_neg hne]
  have hstep1 : bwStep ((none, 0), (none, 6)) (d0, avgFor E d0) =
      ((some ⟨dayNames.getD d0 "", avgFor E d0⟩, avgFor E d0),
        (some ⟨dayNames.getD d0 "", avgFor E d0⟩, avgFor E d0)) := by
    simp [bwStep, hpos0, hlt0]
  rw [hds, List.map_cons, List.foldl_cons, hstep1] at hcalc
  have hpw : ((d0, avgFor E d0) :: ds.map fun d => (d, avgFor E d)).Pairwise
      (fun p q => p.1 < q.1) := by
    have h1 : (presentDays E).Pairwise (· < ·) := presentDays_pairwise E
    rw [hds] at h1
    have h2 : ((d0 :: ds).map fun d => (d, avgFor E d)).Pairwise
        (fun p q => p.1 < q.1) := by
      rw [List.pairwise_map]
      exact h1
    simpa using h2
  obtain ⟨db, vb, heqb, hmemb, hub, htieb⟩ :=
    bestFold_char (ds.map fun d => (d, avgFor E d)) d0 (avgFor E d0) hpw
  obtain ⟨dw, vw, heqw, hmemw, hlb, htiew⟩ :=
    worstFold_char (ds.map fun d => (d, avgFor E d)) d0 (avgFor E d0) hpw
  rw [foldl_bwStep_fst, heqb, foldl_bwStep_snd, heqw] at hcalc
  have hlist : (d0, avgFor E d0) :: (ds.map fun d => (d, avgFor E d)) =
      (presentDays E).map fun d => (d, avgFor E d) := by
    rw [hds, List.map_cons]
  rw [hlist] at hmemb hub htieb hmemw hlb htiew
  obtain ⟨db', hdb', hdbeq⟩ := List.mem_map.mp hmemb
  obtain ⟨dw', hdw', hdweq⟩ := List.mem_map.mp hmemw
  have hdb1 : db' = db := congrArg Prod.fst hdbeq
  have hdw1 : dw' = dw := congrArg Prod.fst hdweq
  subst hdb1 hdw1
  have hdb2 : avgFor E db' = vb := congrArg Prod.snd hdbeq
  have hdw2 : avgFor E dw' = vw := congrArg Prod.snd hdweq
  refine ⟨db', dw', hdb', hdw', ?_, ?_, ?_, ?_, ?_, ?_⟩
  · rw [hcalc, hdb2]
  · rw [hcalc, hdw2]
  · intro d hd
    rw [hdb2]
    exact hub (d, avgFor E d) (List.mem_map_of_mem _ hd)
  · intro d hd hdeq
    refine htieb (d, avgFor E d) (List.mem_map_of_mem _ hd) ?_
    show avgFor E d = vb
    rw [hdeq]
    exact hdb2
  · intro d hd
    rw [hdw2]
    exact hlb (d, avgFor E d) (List.mem_map_of_mem _ hd)
  · intro d hd hdeq
    refine htiew (d, avgFor E d) (List.mem_map_of_mem _ hd) ?_
    show avgFor E d = vw
    rw [hdeq]
    exact hdw2

/-- C6 counterexample: entries `exTie` insert the Friday bucket first and
the Sunday bucket second, and the two buckets tie at average 3.  The
claim's insertion-order tie-break would report Friday; the source
iterates `Object.entries(dayStats)` in ascending weekday-number order, so
it reports Sunday for both best and worst. -/
theorem bestWorst_insertion_order_cex :
    calculateBestWorstDays exTie ≠ claimBestWorstDays exTie := by
  have h0 : avgFor exTie 0 = 3 := by
    rw [avgFor, show (dayStatFor exTie 0).sum = 3 from by decide,
      show (dayStatFor exTie 0).count = 1 from by decide]
    norm_num
  have h5 : avgFor exTie 5 = 3 := by
    rw [avgFor, show (dayStatFor exTie 5).sum = 3 from by decide,
      show (dayStatFor exTie 5).count = 1 from by decide]
    norm_num
  have hcode : calculateBestWorstDays exTie =
      (some ⟨"Sunday", 3⟩, some ⟨"Sunday", 3⟩) := by
    rw [calculateBestWorstDays, if_neg (show ¬ exTie = [] from by decide),
      show presentDays exTie = [0, 5] from by decide]
    simp only [List.map_cons, List.map_nil, h0, h5, List.foldl_cons, List.foldl_nil]
    norm_num [bwStep, dayNames]
  have hclaim : claimBestWorstDays exTie =
      (some ⟨"Friday", 3⟩, some ⟨"Friday", 3⟩) := by
    rw [claimBestWorstDays, if_neg (show ¬ exTie = [] from by decide),
      show firstAppearance (exTie.map fun e => dayOfWeek e.dateKey) = [5, 0] from
        by decide]
    simp only [List.map_cons, List.map_nil, h0, h5, List.foldl_cons, List.foldl_nil]
    norm_num [bwStep, dayNames]
  rw [hcode, hclaim]
  simp only [ne_eq, Prod.mk.injEq, Option.some.injEq, DayResult.mk.injEq, not_and]
  intro h
  exact absurd h.1 (by decide)

/-- Concrete instance of `bestWorst_amended` on the spec's
Monday-mood-5 / Friday-mood-1 example. -/
theorem bestWorst_amended_witness :
    ∃ db dw : Nat,
      db ∈ presentDays exMonFri ∧ dw ∈ presentDays exMonFri ∧
      (calculateBestWorstDays exMonFri).1 =
        some ⟨dayNames.getD db "", avgFor exMonFri db⟩ ∧
      (calculateBestWorstDays exMonFri).2 =
        some ⟨dayNames.getD dw "", avgFor exMonFri dw⟩ ∧
      (∀ d ∈ presentDays exMonFri, avgFor exMonFri d ≤ avgFor exMonFri db) ∧
      (∀ d ∈ presentDays exMonFri, avgFor exMonFri d = avgFor exMonFri db → db ≤ d) ∧
      (∀ d ∈ presentDays exMonFri, avgFor exMonFri dw ≤ avgFor exMonFri d) ∧
      (∀ d ∈ presentDays exMonFri, avgFor exMonFri d = avgFor exMonFri dw → dw ≤ d) :=
  bestWorst_amended exMonFri (by decide) (by decide)

/-- C7 counterexample: with `today = 100` and entries on days 86 (mood
1), 87 (mood 5) and 100 (mood 3), the source's previous window is the
*8-day* interval `[86, 93]` (average 3, delta 0), while the claim's
preceding 7-day window is `[87, 93]` (average 5, delta −2). -/
theorem weeklyTrend_window_cex :
    updateWeeklyTrend 100 exWindow ≠ claimWoWDelta 100 exWindow := by
  have hcode : updateWeeklyTrend 100 exWindow = TrendResult.delta 0 := by
    have hunfold : updateWeeklyTrend 100 exWindow =
        if (exWindow.filter fun e => 100 - 7 < e.dateKey) = [] ∨
            (exWindow.filter fun e => 100 - 14 ≤ e.dateKey ∧ e.dateKey ≤ 100 - 7) =
              [] then
          TrendResult.notEnoughData
        else TrendResult.delta
          (calculateAverageMood (exWindow.filter fun e => 100 - 7 < e.dateKey) -
            calculateAverageMood
              (exWindow.filter fun e => 100 - 14 ≤ e.dateKey ∧ e.dateKey ≤ 100 - 7)) := by
      rw [updateWeeklyTrend, if_neg (show ¬ exWindow = [] from by decide)]
    rw [hunfold,
      show (exWindow.filter fun e => 100 - 7 < e.dateKey) = [⟨100, 3, ""⟩] from
        by decide,
      show (exWindow.filter fun e => 100 - 14 ≤ e.dateKey ∧ e.dateKey ≤ 100 - 7) =
        [⟨86, 1, ""⟩, ⟨87, 5, ""⟩] from by decide]
    rw [if_neg (by simp)]
    have ha : calculateAverageMood [(⟨100, 3, ""⟩ : Entry)] = 3 := by
      rw [calculateAverageMood, if_neg (by simp)]
      norm_num [round1]
    have hb : calculateAverageMood [(⟨86, 1, ""⟩ : Entry), ⟨87, 5, ""⟩] = 3 := by
      rw [calculateAverageMood, if_neg (by simp)]
      norm_num [round1]
    rw [ha, hb]
    norm_num
  have hclaim : claimWoWDelta 100 exWindow = TrendResult.delta (-2) := by
    rw [claimWoWDelta]
    rw [show (exWindow.filter fun e => 100 - 6 ≤ e.dateKey ∧ e.dateKey ≤ 100) =
        [⟨100, 3, ""⟩] from by decide,
      show (exWindow.filter fun e => 100 - 13 ≤ e.dateKey ∧ e.dateKey ≤ 100 - 7) =
        [⟨87, 5, ""⟩] from by decide]
    rw [if_neg (by simp)]
    have ha : rawAverageMood [(⟨100, 3, ""⟩ : Entry)] = 3 := by
      rw [rawAverageMood, if_neg (by simp)]
      norm_num
    have hb : rawAverageMood [(⟨87, 5, ""⟩ : Entry)] = 5 := by
      rw [rawAverageMood, if_neg (by simp)]
      norm_num
    rw [ha, hb]
    norm_num [round1]
  rw [hcode, hclaim]
  simp only [ne_eq, TrendResult.delta.injEq]
  norm_num

/-- C7 (amended): for `T ≥ 14` the weekly-trend figure equals the
one-decimal average over entries with `dateKey ≥ T-6` (the code puts no
upper bound on the current window; loaded ranges end at today) minus the
one-decimal average over the *8-day* window `[T-14, T-7]`; whenever
either window is empty no delta is reported ("no data" / "not enough
data"). -/
theorem weeklyTrend_amended (T : Nat) (E : List Entry) (hT : 14 ≤ T) :
    ((E.filter fun e => T - 6 ≤ e.dateKey) ≠ [] →
      (E.filter fun e => T - 14 ≤ e.dateKey ∧ e.dateKey ≤ T - 7) ≠ [] →
      updateWeeklyTrend T E = TrendResult.delta
        (calculateAverageMood (E.filter fun e => T - 6 ≤ e.dateKey) -
          calculateAverageMood
            (E.filter fun e => T - 14 ≤ e.dateKey ∧ e.dateKey ≤ T - 7)))
    ∧ (((E.filter fun e => T - 6 ≤ e.dateKey) = [] ∨
        (E.filter fun e => T - 14 ≤ e.dateKey ∧ e.dateKey ≤ T - 7) = []) →
      ∀ q : ℚ, updateWeeklyTrend T E ≠ TrendResult.delta q) := by
  have hfilt : E.filter (fun e => T - 7 < e.dateKey) =
      E.filter (fun e => T - 6 ≤ e.dateKey) :=
    List.filter_congr (by
      intro x hx
      simp only [decide_eq_decide]
      omega)
  rcases eq_or_ne E [] with rfl | hne
  · constructor
    · intro h1 _
      simp at h1
    · intro _ q
      simp [updateWeeklyTrend]
  · have hunfold : updateWeeklyTrend T E =
        if (E.filter fun e => T - 7 < e.dateKey) = [] ∨
            (E.filter fun e => T - 14 ≤ e.dateKey ∧ e.dateKey ≤ T - 7) = [] then
          TrendResult.notEnoughData
        else TrendResult.delta
          (calculateAverageMood (E.filter fun e => T - 7 < e.dateKey) -
            calculateAverageMood
              (E.filter fun e => T - 14 ≤ e.dateKey ∧ e.dateKey ≤ T - 7)) := by
      rw [updateWeeklyTrend, if_neg hne]
    rw [hunfold, hfilt]
    constructor
    · intro h1 h2
      rw [if_neg (by simp only [not_or]; exact ⟨h1, h2⟩)]
    · intro hor q
      rw [if_pos hor]
      exact fun h => TrendResult.noConfusion h

/-- Concrete instance of `weeklyTrend_amended` at `today = 100` with one
entry in each window: the reported delta is the difference of the
rounded window averages. -/
theorem weeklyTrend_amended_witness :
    updateWeeklyTrend 100 exTwoWeeks = TrendResult.delta
      (calculateAverageMood (exTwoWeeks.filter fun e => 100 - 6 ≤ e.dateKey) -
        calculateAverageMood
          (exTwoWeeks.filter fun e => 100 - 14 ≤ e.dateKey ∧ e.dateKey ≤ 100 - 7)) :=
  (weeklyTrend_amended 100 exTwoWeeks (by norm_num)).1 (by decide) (by decide)

/-- C8: evaluation of `updateLoggingRate` at the failing selector.  For
the `"week"` selector `parseInt("week")` is `NaN`, `NaN > 0` is false,
and the displayed rate is `0%` for *every* entry list and date — the
claimed `distinct days / days in range` is never computed (the detail
text even shows "NaN days").  For the numeric `"7"` selector the claim's
arithmetic holds: 7 distinct logged days give 100%, no entries give 0%,
and duplicated date keys (3 distinct days among 6 entries) count once,
giving `round(300/7) = 43%`. -/
theorem loggingRate_week_zero :
    (∀ (dayOfMonth daysInMonth : Nat) (E : List Entry),
      updateLoggingRate RangeSel.week dayOfMonth daysInMonth E = 0)
    ∧ updateLoggingRate (RangeSel.numeric 7) 15 31 exGrace7 = 100
    ∧ updateLoggingRate (RangeSel.numeric 7) 15 31 [] = 0
    ∧ updateLoggingRate (RangeSel.numeric 7) 15 31 exDupRun = 43 := by
  exact ⟨fun d m E => rfl, by decide, by decide, by decide⟩

/-- C9: mood distribution counts entries per mood 1–5 and normalizes bar
heights to the range's maximum count: the empty list yields all-zero
counts and heights with no division by zero (the `Math.max(..., 1)` floor
keeps the denominator at least 1), and on a non-empty list of valid
entries every mood with the highest count renders at exactly 100%. -/
theorem moodDistribution_maxnorm :
    (∀ m : Nat, moodCounts ([] : List Entry) m = 0 ∧ barPercentage [] m = 0)
    ∧ (∀ E : List Entry, 1 ≤ maxCount E)
    ∧ (∀ (E : List Entry) (m : Nat), E ≠ [] →
        (∀ e ∈ E, 1 ≤ e.moodType ∧ e.moodType ≤ 5) →
        m ∈ List.range' 1 5 →
        (∀ mm ∈ List.range' 1 5, moodCounts E mm ≤ moodCounts E m) →
        barPercentage E m = 100) := by
  refine ⟨?_, ?_, ?_⟩
  · intro m
    have hmc : maxCount ([] : List Entry) = 1 := by decide
    constructor
    · simp [moodCounts]
    · rw [barPercentage, if_pos (by rw [hmc]; omega), hmc]
      simp [moodCounts]
  · intro E
    exact le_max_right _ 1
  · intro E m hne hval hm hdom
    have hm2 : 1 ≤ m ∧ m < 1 + 5 := List.mem_range'_1.mp hm
    obtain ⟨e, E', hE⟩ := List.exists_cons_of_ne_nil hne
    have hemood := hval e (by rw [hE]; exact List.mem_cons_self _ _)
    have hcnt_mood : 1 ≤ moodCounts E e.moodType := by
      have hmemf : e ∈ E.filter fun x => x.moodType = e.moodType := by
        rw [List.mem_filter]
        exact ⟨by rw [hE]; exact List.mem_cons_self _ _, by simp⟩
      have := List.length_pos.mpr (List.ne_nil_of_mem hmemf)
      simpa [moodCounts] using this
    have hcm : 1 ≤ moodCounts E m :=
      le_trans hcnt_mood (hdom e.moodType (by rw [List.mem_range'_1]; omega))
    have hmax : maxCount E = moodCounts E m := by
      have h1 := hdom 1 (by rw [List.mem_range'_1]; omega)
      have h2 := hdom 2 (by rw [List.mem_range'_1]; omega)
      have h3 := hdom 3 (by rw [List.mem_range'_1]; omega)
      have h4 := hdom 4 (by rw [List.mem_range'_1]; omega)
      have h5 := hdom 5 (by rw [List.mem_range'_1]; omega)
      have hl : 1 ≤ m := hm2.1
      have hu : m < 6 := by omega
      interval_cases m <;>
        · rw [maxCount]
          simp only [Nat.max_def]
          split_ifs <;> omega
    have hpos : 0 < maxCount E := by rw [hmax]; omega
    rw [barPercentage, if_pos hpos, hmax]
    have hne0 : ((moodCounts E m : Nat) : ℚ) ≠ 0 := Nat.cast_ne_zero.mpr (by omega)
    rw [div_self hne0, one_mul]

/-- Concrete instance of `moodDistribution_maxnorm`: a single mood-3
entry renders the mood-3 bar at 100%. -/
theorem moodDistribution_maxnorm_witness : barPercentage exOne 3 = 100 :=
  moodDistribution_maxnorm.2.2 exOne 3 (by decide) (by decide) (by decide)
    (by decide)

/-- C10: the current streak depends only on the *set* of date keys: two
entry lists with the same distinct date keys — whatever the order,
duplication, moods and notes — give the same current streak for the same
today. -/
theorem currentStreak_keyset_only (T : Nat) (E1 E2 : List Entry)
    (h : (E1.map Entry.dateKey).dedup.Perm (E2.map Entry.dateKey).dedup) :
    calculateCurrentStreak T E1 = calculateCurrentStreak T E2 := by
  have hm : ∀ k, k ∈ E1.map Entry.dateKey ↔ k ∈ E2.map Entry.dateKey := fun k =>
    ⟨fun hk => List.mem_dedup.mp (h.mem_iff.mp (List.mem_dedup.mpr hk)),
     fun hk => List.mem_dedup.mp (h.mem_iff.mpr (List.mem_dedup.mpr hk))⟩
  rw [calculateCurrentStreak_eq_spec, calculateCurrentStreak_eq_spec]
  exact specCurrentStreak_congr T hm

/-- Concrete instance of `currentStreak_keyset_only`: the key set {4, 5}
presented in different orders, multiplicities, moods and notes yields the
same current streak for `today = 5`. -/
theorem currentStreak_keyset_only_witness :
    (exKeysA.map Entry.dateKey).dedup.Perm (exKeysB.map Entry.dateKey).dedup ∧
    calculateCurrentStreak 5 exKeysA = calculateCurrentStreak 5 exKeysB :=
  ⟨by decide, currentStreak_keyset_only 5 exKeysA exKeysB (by decide)⟩
